import Mathlib

/-!
Verification of the RESPIROGUARD status-channel client.

This file shallowly embeds the client-side streaming state machine of the
repository: the step list and its `updateStep` / `resetSteps` operations
(frontend `useAgentStatus` hook, src/unnamed/part_003) and the stream
decode loop of `fetchRiskData` (src/frontend/app/page.tsx).  Strings are
modelled as `List Char`; machine behaviour (buffering, newline splitting,
the `data: ` record prefix, JSON parsing, the inner try/catch around the
parse and dispatch) is translated directly from the source.
-/

/-- Step status, mirroring the TS union `'pending' | 'active' | 'completed'`. -/
inductive Status where
  | pending
  | active
  | completed
deriving DecidableEq

/-- One pipeline step, mirroring the TS interface `Step` of part_003. -/
structure Step where
  id : List Char
  name : List Char
  status : Status
deriving DecidableEq

/-- Initial step list of `useAgentStatus` (the `useState` initialiser). -/
def initialSteps : List Step :=
  [ { id := "fetch_enviro_data".data, name := "Fetching Data...".data, status := Status.pending },
    { id := "analyze_risk".data, name := "Analyzing Pollen Risks...".data, status := Status.pending },
    { id := "generate_advice".data, name := "Calculating Safe Duration...".data, status := Status.pending },
    { id := "done".data, name := "Done.".data, status := Status.pending } ]

/-- `resetSteps` of part_003: replaces the list by the same all-pending literal. -/
def resetSteps : List Step :=
  [ { id := "fetch_enviro_data".data, name := "Fetching Data...".data, status := Status.pending },
    { id := "analyze_risk".data, name := "Analyzing Pollen Risks...".data, status := Status.pending },
    { id := "generate_advice".data, name := "Calculating Safe Duration...".data, status := Status.pending },
    { id := "done".data, name := "Done.".data, status := Status.pending } ]

/-- `newSteps.findIndex(s => s.id === stepId)` of part_003, as an `Option Nat`
(JS returns -1 when no element matches; `none` models that). -/
def findIndex (steps : List Step) (stepId : List Char) : Option Nat :=
  match steps with
  | [] => none
  | s :: rest => if s.id = stepId then some 0 else (findIndex rest stepId).map (fun n => n + 1)

/-- The element-wise effect of the body of `updateStep` in part_003: the step at
the found index `k` gets the new status, every strictly earlier step that is not
yet completed is set to completed, later steps are untouched.  `b` is the index
of the head of `l` in the whole list. -/
def updateFrom (k : Nat) (status : Status) (b : Nat) (l : List Step) : List Step :=
  match l with
  | [] => []
  | s :: rest =>
    (if b = k then { s with status := status }
     else if b < k then (if s.status ≠ Status.completed then { s with status := Status.completed } else s)
     else s) :: updateFrom k status (b + 1) rest

/-- `updateStep(stepId, status)` of part_003: find the step by id; if absent the
copied array is returned unchanged; otherwise set its status and mark all
previous steps completed. -/
def updateStep (steps : List Step) (stepId : List Char) (status : Status) : List Step :=
  match findIndex steps stepId with
  | none => steps
  | some k => updateFrom k status 0 steps

/-- Status of the step at index `i`, if any. -/
def statusAt (l : List Step) (i : Nat) : Option Status := (l.get? i).map Step.status

theorem updateFrom_length (k : Nat) (st : Status) :
    ∀ (l : List Step) (b : Nat), (updateFrom k st b l).length = l.length := by
  intro l
  induction l with
  | nil => intro b; rfl
  | cons s rest ih => intro b; simp [updateFrom, ih]

theorem updateStep_length (l : List Step) (stepId : List Char) (st : Status) :
    (updateStep l stepId st).length = l.length := by
  unfold updateStep
  cases findIndex l stepId with
  | none => rfl
  | some k => simp [updateFrom_length]

theorem statusAt_updateFrom (k : Nat) (st : Status) :
    ∀ (l : List Step) (b i : Nat),
      statusAt (updateFrom k st b l) i =
        (statusAt l i).map (fun s0 =>
          if b + i = k then st else if b + i < k then Status.completed else s0) := by
  intro l
  induction l with
  | nil => intro b i; simp [updateFrom, statusAt]
  | cons s rest ih =>
    intro b i
    cases i with
    | zero =>
      simp only [updateFrom, statusAt, List.get?_cons_zero, Option.map_some, Nat.add_zero]
      by_cases hbk : b = k
      · simp [hbk]
      · by_cases hlt : b < k
        · simp only [if_neg hbk, if_pos hlt]
          by_cases hc : s.status = Status.completed
          · simp [hc]
          · simp [hc]
        · simp [hbk, hlt]
    | succ i =>
      simp only [updateFrom, statusAt, List.get?_cons_succ]
      have h := ih (b + 1) i
      simp only [statusAt] at h
      rw [h]
      have harith : b + 1 + i = b + (i + 1) := by omega
      rw [harith]

theorem statusAt_updateStep_found (l : List Step) (stepId : List Char) (st : Status)
    (k : Nat) (h : findIndex l stepId = some k) (i : Nat) :
    statusAt (updateStep l stepId st) i =
      (statusAt l i).map (fun s0 =>
        if i = k then st else if i < k then Status.completed else s0) := by
  unfold updateStep
  rw [h]
  have := statusAt_updateFrom k st l 0 i
  simpa using this

theorem updateStep_not_found (l : List Step) (stepId : List Char) (st : Status)
    (h : findIndex l stepId = none) : updateStep l stepId st = l := by
  unfold updateStep
  rw [h]

theorem findIndex_eq_none (l : List Step) (stepId : List Char)
    (h : ∀ s ∈ l, s.id ≠ stepId) : findIndex l stepId = none := by
  induction l with
  | nil => rfl
  | cons s rest ih =>
    have hs : s.id ≠ stepId := h s (List.mem_cons_self s rest)
    have hrest : findIndex rest stepId = none := by
      apply ih
      intro t ht
      exact h t (List.mem_cons_of_mem s ht)
    simp [findIndex, hs, hrest]

/-- JSON values, as produced by the platform `JSON.parse` builtin. -/
inductive Json where
  | null
  | bool (b : Bool)
  | num (raw : List Char)
  | str (s : List Char)
  | arr (items : List Json)
  | obj (fields : List (List Char × Json))

/-- Named characters, to keep brace and quote literals out of the embedding. -/
def lBraceC : Char := Char.ofNat 123

def rBraceC : Char := Char.ofNat 125

def quoteC : Char := Char.ofNat 34

def backslashC : Char := Char.ofNat 92

/-- JSON insignificant whitespace. -/
def isJsonWs (c : Char) : Bool := c = ' ' || c = '\t' || c = '\n' || c = '\r'

def skipWs (cs : List Char) : List Char := cs.dropWhile isJsonWs

/-- Single-character JSON string escapes (the `\uXXXX` form is not modelled;
no claim depends on it). -/
def escChar (c : Char) : Option Char :=
  if c = quoteC then some quoteC
  else if c = backslashC then some backslashC
  else if c = '/' then some '/'
  else if c = 'n' then some '\n'
  else if c = 't' then some '\t'
  else if c = 'r' then some '\r'
  else if c = 'b' then some (Char.ofNat 8)
  else if c = 'f' then some (Char.ofNat 12)
  else none

/-- Parse the body of a JSON string (the opening quote already consumed),
returning the decoded characters and the remainder after the closing quote. -/
def pString (cs : List Char) : Option (List Char × List Char) :=
  match cs with
  | [] => none
  | c :: rest =>
    if c = quoteC then some ([], rest)
    else if c = backslashC then
      match rest with
      | [] => none
      | e :: rest2 =>
        match escChar e with
        | none => none
        | some ch =>
          match pString rest2 with
          | none => none
          | some (s, r) => some (ch :: s, r)
    else if c.toNat < 32 then none
    else
      match pString rest with
      | none => none
      | some (s, r) => some (c :: s, r)

def isNumChar (c : Char) : Bool :=
  c.isDigit || c = '-' || c = '+' || c = '.' || c = 'e' || c = 'E'

/-- Lenient JSON number scan: the raw span of number characters. -/
def pNumber (cs : List Char) : Option (List Char × List Char) :=
  match cs.takeWhile isNumChar with
  | [] => none
  | tk => some (tk, cs.dropWhile isNumChar)

mutual

/-- Model of the platform `JSON.parse` builtin (recursive descent on the JSON
grammar used by the wire protocol; `fuel` bounds recursion depth). -/
def pJson : Nat → List Char → Option (Json × List Char)
  | 0, _ => none
  | fuel + 1, cs =>
    match skipWs cs with
    | [] => none
    | c :: rest =>
      if c = quoteC then (pString rest).map (fun p => (Json.str p.1, p.2))
      else if c = lBraceC then
        match skipWs rest with
        | [] => none
        | c2 :: rest2 =>
          if c2 = rBraceC then some (Json.obj [], rest2)
          else (pMembers fuel (skipWs rest)).map (fun p => (Json.obj p.1, p.2))
      else if c = '[' then
        match skipWs rest with
        | ']' :: rest2 => some (Json.arr [], rest2)
        | _ => (pItems fuel (skipWs rest)).map (fun p => (Json.arr p.1, p.2))
      else if c = 't' then
        match rest with
        | 'r' :: 'u' :: 'e' :: r => some (Json.bool true, r)
        | _ => none
      else if c = 'f' then
        match rest with
        | 'a' :: 'l' :: 's' :: 'e' :: r => some (Json.bool false, r)
        | _ => none
      else if c = 'n' then
        match rest with
        | 'u' :: 'l' :: 'l' :: r => some (Json.null, r)
        | _ => none
      else if c.isDigit || c = '-' then
        (pNumber (c :: rest)).map (fun p => (Json.num p.1, p.2))
      else none

/-- Object members: `"key": value` pairs separated by commas, up to the
closing brace. -/
def pMembers : Nat → List Char → Option (List (List Char × Json) × List Char)
  | 0, _ => none
  | fuel + 1, cs =>
    match skipWs cs with
    | [] => none
    | c :: rest =>
      if c = quoteC then
        match pString rest with
        | none => none
        | some (key, rest2) =>
          match skipWs rest2 with
          | ':' :: rest3 =>
            match pJson fuel rest3 with
            | none => none
            | some (v, rest4) =>
              match skipWs rest4 with
              | [] => none
              | c2 :: rest5 =>
                if c2 = ',' then (pMembers fuel rest5).map (fun p => ((key, v) :: p.1, p.2))
                else if c2 = rBraceC then some ([(key, v)], rest5)
                else none
          | _ => none
      else none

/-- Array items: values separated by commas, up to the closing bracket. -/
def pItems : Nat → List Char → Option (List Json × List Char)
  | 0, _ => none
  | fuel + 1, cs =>
    match pJson fuel cs with
    | none => none
    | some (v, rest) =>
      match skipWs rest with
      | ',' :: rest2 => (pItems fuel rest2).map (fun p => (v :: p.1, p.2))
      | ']' :: rest2 => some ([v], rest2)
      | _ => none

end

/-- `JSON.parse` on a whole record payload: one value, only whitespace after. -/
def jsonParse (cs : List Char) : Option Json :=
  match pJson (cs.length + 1) cs with
  | some (j, rest) => if skipWs rest = [] then some j else none
  | none => none

/-- JS property access `data.key` on a parsed value: `none` models
`undefined` (missing field, or a non-object receiver).  Later duplicate keys
win, as in `JSON.parse`. -/
def getField (j : Json) (key : List Char) : Option Json :=
  match j with
  | Json.obj fields => (fields.reverse.find? (fun kv => kv.1 == key)).map (fun kv => kv.2)
  | _ => none

/-- The string content of a field, when the field holds a JS string.  A
non-string value never strict-equals (`===`) a string, so consumers treat
`none` as a miss. -/
def strField (j : Json) (key : List Char) : Option (List Char) :=
  match getField j key with
  | some (Json.str s) => some s
  | _ => none

/-- The React state of the page touched by `fetchRiskData`
(src/frontend/app/page.tsx): `riskData`, `loading`, `isStreaming`,
`error`, and the `steps` of the `useAgentStatus` hook.  The render-only
state (manual-input fields, chat toggle) is out of scope. -/
structure Core where
  steps : List Step
  riskData : Option Json
  loading : Bool
  streaming : Bool
  error : Option (List Char)

/-- `updateStep(data.step, status)` as called from the decode loop: when
`data.step` is not a string it never strict-equals a string step id, so
`findIndex` misses and the call is a no-op; `none` models that directly. -/
def updateStepEvt (steps : List Step) (data : Json) (st : Status) : List Step :=
  match strField data "step".data with
  | some sid => updateStep steps sid st
  | none => steps

/-- The dispatch on `data.type` inside the decode loop.  Returns
`Except msg core`: the `Except.error` case models the
`throw new Error(data.message)` executed on an `error` event, which is an
exception raised inside the surrounding try block. -/
def applyEvent (c : Core) (data : Json) : Except (List Char) Core :=
  if strField data "type".data = some "step_start".data then
    Except.ok { c with steps := updateStepEvt c.steps data Status.active }
  else if strField data "type".data = some "step_complete".data then
    Except.ok { c with steps := updateStepEvt c.steps data Status.completed }
  else if strField data "type".data = some "result".data then
    Except.ok { c with riskData := getField data "data".data, streaming := false, loading := false }
  else if strField data "type".data = some "error".data then
    Except.error ((strField data "message".data).getD [])
  else
    Except.ok c

/-- One iteration of `for (const line of lines)`: lines not starting with
the `data: ` marker are skipped; otherwise the payload after the marker is
parsed and dispatched inside `try { ... } catch (parseError) { console.error }`.
Both a `JSON.parse` failure and the `throw` of the `error` branch land in
that same catch, which only logs — the state is left unchanged. -/
def handleLine (c : Core) (line : List Char) : Core :=
  if ("data: ".data).isPrefixOf line then
    match jsonParse (line.drop 6) with
    | none => c
    | some data =>
      match applyEvent c data with
      | Except.ok c2 => c2
      | Except.error _ => c
  else c

/-- `buffer.split('\n')` followed by `buffer = lines.pop() || ''`: the first
component is the list of complete lines handed to the for-loop, the second is
the trailing segment kept as the new buffer. -/
def splitLines (cs : List Char) : List (List Char) × List Char :=
  match cs with
  | [] => ([], [])
  | c :: rest =>
    match splitLines rest with
    | (ls, t) =>
      if c = '\n' then ([] :: ls, t)
      else
        match ls with
        | [] => ([], c :: t)
        | l :: ls2 => ((c :: l) :: ls2, t)

/-- Decoder state local to one run of the read loop: the text `buffer`
plus the page state the loop body mutates. -/
structure DecState where
  buffer : List Char
  core : Core

/-- One turn of the `while (true)` read loop for a delivered chunk:
append to the buffer, split on newlines, keep the trailing partial line,
process each complete line in order. -/
def processChunk (s : DecState) (chunk : List Char) : DecState :=
  match splitLines (s.buffer ++ chunk) with
  | (ls, t) => { buffer := t, core := ls.foldl handleLine s.core }

/-- JS whitespace trimmed by `String.trim` (ASCII part). -/
def trimL (cs : List Char) : List Char :=
  ((cs.dropWhile isJsonWs).reverse.dropWhile isJsonWs).reverse

/-- `fetchRiskData(loc, allergies)` of src/frontend/app/page.tsx, as a
function of the page state `c0` before the call and of the transport
outcome: `ok` is `response.ok`, `chunks` the successful reads delivered
before end-of-stream (a present response body is assumed; the `statusText`
interpolated into the transport error message is abstracted).  The second
component records whether the HTTP request was issued.  Every `throw`
before or instead of the read loop lands in the outer catch, which stores
the message and clears the in-progress flags. -/
def fetchRiskData (c0 : Core) (loc : List Char) (allergies : List (List Char))
    (ok : Bool) (chunks : List (List Char)) : Core × Bool :=
  let c1 : Core := { c0 with loading := true, error := none, streaming := true, steps := resetSteps }
  if loc.isEmpty || (trimL loc).isEmpty then
    ({ c1 with error := some "Please enter a location".data, streaming := false, loading := false }, false)
  else if allergies.isEmpty then
    ({ c1 with error := some "Please enter allergies".data, streaming := false, loading := false }, false)
  else if !ok then
    ({ c1 with error := some "API error: ".data, streaming := false, loading := false }, true)
  else
    ((chunks.foldl processChunk { buffer := [], core := c1 }).core, true)

/-- The page state on mount: all `useState` defaults relevant here. -/
def mountCore : Core :=
  { steps := initialSteps, riskData := none, loading := false, streaming := false, error := none }

theorem findIndex_lt_length (l : List Step) (stepId : List Char) :
    ∀ k, findIndex l stepId = some k → k < l.length := by
  induction l with
  | nil => intro k h; simp [findIndex] at h
  | cons s rest ih =>
    intro k h
    by_cases hs : s.id = stepId
    · simp [findIndex, hs] at h
      simp [List.length_cons]
      omega
    · simp [findIndex, hs] at h
      obtain ⟨m, hm, hk⟩ := h
      have := ih m hm
      simp [List.length_cons]
      omega

theorem statusAt_isSome_of_lt (l : List Step) (i : Nat) (h : i < l.length) :
    ∃ s, statusAt l i = some s := by
  unfold statusAt
  rw [List.get?_eq_get h]
  exact ⟨_, rfl⟩

/-- C3: on `step_start{id}` with an id found in the step list, `updateStep`
sets the found step's status to `active` and every strictly earlier step to
`completed` (self-healing back-fill). -/
theorem stepStart_activates_and_backfills (steps : List Step) (stepId : List Char) (k : Nat)
    (h : findIndex steps stepId = some k) :
    statusAt (updateStep steps stepId Status.active) k = some Status.active ∧
    ∀ j, j < k → statusAt (updateStep steps stepId Status.active) j = some Status.completed := by
  have hk : k < steps.length := findIndex_lt_length steps stepId k h
  constructor
  · obtain ⟨s, hs⟩ := statusAt_isSome_of_lt steps k hk
    rw [statusAt_updateStep_found steps stepId Status.active k h k, hs]
    simp
  · intro j hj
    obtain ⟨s, hs⟩ := statusAt_isSome_of_lt steps j (lt_trans hj hk)
    rw [statusAt_updateStep_found steps stepId Status.active k h j, hs]
    have hjk : j ≠ k := by omega
    simp [hjk, hj]

/-- C3 witness: `step_complete` for `fetch_enviro_data` was never received,
yet `step_start` for `analyze_risk` marks it `completed`. -/
theorem stepStart_activates_and_backfills_witness :
    findIndex resetSteps ("analyze_risk".data) = some 1 ∧
    statusAt (updateStep resetSteps ("analyze_risk".data) Status.active) 1 = some Status.active ∧
    statusAt (updateStep resetSteps ("analyze_risk".data) Status.active) 0 = some Status.completed :=
  ⟨by decide,
   (stepStart_activates_and_backfills resetSteps ("analyze_risk".data) 1 (by decide)).1,
   (stepStart_activates_and_backfills resetSteps ("analyze_risk".data) 1 (by decide)).2 0 (by decide)⟩

/-- C10: `step_complete{id}` for a known id applies the same back-fill as
`step_start`: the found step and every strictly earlier step end `completed`. -/
theorem stepComplete_backfills (steps : List Step) (stepId : List Char) (k : Nat)
    (h : findIndex steps stepId = some k) :
    statusAt (updateStep steps stepId Status.completed) k = some Status.completed ∧
    ∀ j, j < k → statusAt (updateStep steps stepId Status.completed) j = some Status.completed := by
  have hk : k < steps.length := findIndex_lt_length steps stepId k h
  constructor
  · obtain ⟨s, hs⟩ := statusAt_isSome_of_lt steps k hk
    rw [statusAt_updateStep_found steps stepId Status.completed k h k, hs]
    simp
  · intro j hj
    obtain ⟨s, hs⟩ := statusAt_isSome_of_lt steps j (lt_trans hj hk)
    rw [statusAt_updateStep_found steps stepId Status.completed k h j, hs]
    have hjk : j ≠ k := by omega
    simp [hjk, hj]

/-- C10 witness: `step_complete{generate_advice}` on a fresh list completes
steps 0, 1 and 2. -/
theorem stepComplete_backfills_witness :
    findIndex resetSteps ("generate_advice".data) = some 2 ∧
    statusAt (updateStep resetSteps ("generate_advice".data) Status.completed) 2 = some Status.completed ∧
    statusAt (updateStep resetSteps ("generate_advice".data) Status.completed) 0 = some Status.completed ∧
    statusAt (updateStep resetSteps ("generate_advice".data) Status.completed) 1 = some Status.completed :=
  ⟨by decide,
   (stepComplete_backfills resetSteps ("generate_advice".data) 2 (by decide)).1,
   (stepComplete_backfills resetSteps ("generate_advice".data) 2 (by decide)).2 0 (by decide),
   (stepComplete_backfills resetSteps ("generate_advice".data) 2 (by decide)).2 1 (by decide)⟩

/-- C6: an event naming an id that matches no step leaves the step list
entirely unchanged — ids, names and statuses included. -/
theorem unknown_id_noop (steps : List Step) (stepId : List Char) (status : Status)
    (h : ∀ s ∈ steps, s.id ≠ stepId) :
    updateStep steps stepId status = steps :=
  updateStep_not_found steps stepId status (findIndex_eq_none steps stepId h)

/-- C6 witness: an unknown id `bogus` is a no-op on the fresh list. -/
theorem unknown_id_noop_witness :
    (∀ s ∈ resetSteps, s.id ≠ "bogus".data) ∧
    updateStep resetSteps ("bogus".data) Status.active = resetSteps :=
  ⟨by decide, unknown_id_noop resetSteps ("bogus".data) Status.active (by decide)⟩

/-- C2 counterexample: a late duplicate `step_start{fetch_enviro_data}` sets
the already-completed step back to `active` — the claimed monotonicity fails. -/
theorem completed_regresses_on_late_step_start :
    statusAt (updateStep resetSteps ("fetch_enviro_data".data) Status.completed) 0
      = some Status.completed ∧
    statusAt (updateStep (updateStep resetSteps ("fetch_enviro_data".data) Status.completed)
      ("fetch_enviro_data".data) Status.active) 0 = some Status.active :=
  ⟨by decide, by decide⟩

/-- C2 amended: `updateStep` never sets any step's status to `pending` when
called with a non-pending status (so `completed → pending` never occurs); the
remaining regression is exactly the counterexample's `completed → active` on a
late `step_start` for that same step. -/
theorem updateStep_no_regress_to_pending (l : List Step) (stepId : List Char) (st : Status)
    (i : Nat) (hst : st ≠ Status.pending)
    (h : statusAt (updateStep l stepId st) i = some Status.pending) :
    statusAt l i = some Status.pending := by
  cases hf : findIndex l stepId with
  | none =>
    rw [updateStep_not_found l stepId st hf] at h
    exact h
  | some k =>
    rw [statusAt_updateStep_found l stepId st k hf i] at h
    cases hs : statusAt l i with
    | none => rw [hs] at h; simp at h
    | some s0 =>
      rw [hs] at h
      simp only [Option.map, Option.some.injEq] at h
      by_cases hik : i = k
      · rw [if_pos hik] at h
        exact absurd h hst
      · rw [if_neg hik] at h
        by_cases hlt : i < k
        · rw [if_pos hlt] at h
          exact absurd h (by decide)
        · rw [if_neg hlt] at h
          rw [h]

/-- C2 amended witness: with a non-pending status, a still-pending later step
stays pending, and the source step was pending. -/
theorem updateStep_no_regress_to_pending_witness :
    (Status.active ≠ Status.pending) ∧
    statusAt (updateStep resetSteps ("fetch_enviro_data".data) Status.active) 2
      = some Status.pending ∧
    statusAt resetSteps 2 = some Status.pending :=
  ⟨by decide, by decide,
   updateStep_no_regress_to_pending resetSteps ("fetch_enviro_data".data) Status.active 2
     (by decide) (by decide)⟩

/-- Step lists reachable from the fresh all-pending list via `updateStep`
calls; the status argument is restricted to the two values the decode loop
passes (the TS signature admits only `active` and `completed`). -/
inductive Reachable : List Step → Prop where
  | init : Reachable resetSteps
  | stepActive (l : List Step) (stepId : List Char) :
      Reachable l → Reachable (updateStep l stepId Status.active)
  | stepComplete (l : List Step) (stepId : List Char) :
      Reachable l → Reachable (updateStep l stepId Status.completed)

/-- Non-pending steps form a left-closed region: every step at an index
earlier than a non-pending step is itself non-pending. -/
def noGap (l : List Step) : Prop :=
  ∀ j, j < l.length → ∀ i, i < j →
    statusAt l j ≠ some Status.pending → statusAt l i ≠ some Status.pending

instance noGap_decidable (l : List Step) : Decidable (noGap l) := by
  unfold noGap
  infer_instance

/-- C8 counterexample: after `step_start{generate_advice}` followed by an
out-of-order `step_start{fetch_enviro_data}`, the reachable list has two
`active` steps, so the at-most-one-active invariant fails. -/
theorem two_active_reachable :
    Reachable (updateStep (updateStep resetSteps ("generate_advice".data) Status.active)
      ("fetch_enviro_data".data) Status.active) ∧
    ((updateStep (updateStep resetSteps ("generate_advice".data) Status.active)
      ("fetch_enviro_data".data) Status.active).filter
        (fun s => s.status = Status.active)).length = 2 :=
  ⟨Reachable.stepActive _ _ (Reachable.stepActive _ _ Reachable.init), by decide⟩

theorem noGap_updateStep (l : List Step) (stepId : List Char) (st : Status)
    (hst : st ≠ Status.pending) (h : noGap l) : noGap (updateStep l stepId st) := by
  cases hf : findIndex l stepId with
  | none =>
    rw [updateStep_not_found l stepId st hf]
    exact h
  | some k =>
    intro j hj i hij hjne
    rw [updateStep_length] at hj
    have hil : i < l.length := lt_trans hij hj
    obtain ⟨si, hsi⟩ := statusAt_isSome_of_lt l i hil
    rw [statusAt_updateStep_found l stepId st k hf i, hsi]
    simp only [Option.map, ne_eq, Option.some.injEq]
    by_cases hik : i = k
    · rw [if_pos hik]
      exact hst
    · rw [if_neg hik]
      by_cases hlt : i < k
      · rw [if_pos hlt]
        decide
      · rw [if_neg hlt]
        obtain ⟨sj, hsj⟩ := statusAt_isSome_of_lt l j hj
        have hjk : j ≠ k := by omega
        have hjlt : ¬ j < k := by omega
        rw [statusAt_updateStep_found l stepId st k hf j, hsj] at hjne
        simp only [Option.map, ne_eq, Option.some.injEq, if_neg hjk, if_neg hjlt] at hjne
        have := h j hj i hij (by rw [hsj]; simpa using hjne)
        rw [hsi] at this
        simpa using this

/-- C8 amended: every reachable step list has its non-pending steps forming
a prefix — each step before a non-pending step is itself non-pending.  (The
stronger claimed invariant — at most one `active`, and everything before an
`active` or `completed` step already `completed` — fails, see the
counterexample.) -/
theorem reachable_noGap (l : List Step) (h : Reachable l) : noGap l := by
  induction h with
  | init => decide
  | stepActive l0 stepId _ ih => exact noGap_updateStep l0 stepId Status.active (by decide) ih
  | stepComplete l0 stepId _ ih => exact noGap_updateStep l0 stepId Status.completed (by decide) ih

/-- C8 amended witness: a concrete reachable list satisfies the invariant. -/
theorem reachable_noGap_witness :
    Reachable (updateStep resetSteps ("analyze_risk".data) Status.active) ∧
    noGap (updateStep resetSteps ("analyze_risk".data) Status.active) :=
  ⟨Reachable.stepActive _ _ Reachable.init,
   reachable_noGap _ (Reachable.stepActive _ _ Reachable.init)⟩

theorem splitLines_append (a b : List Char) :
    splitLines (a ++ b) =
      ((splitLines a).1 ++ (splitLines ((splitLines a).2 ++ b)).1,
       (splitLines ((splitLines a).2 ++ b)).2) := by
  induction a with
  | nil => simp [splitLines]
  | cons c a ih =>
    rcases hA : splitLines a with ⟨A1, A2⟩
    rcases hX : splitLines (A2 ++ b) with ⟨X1, X2⟩
    have ihx : splitLines (a ++ b) = (A1 ++ X1, X2) := by
      rw [ih, hA, hX]
    by_cases hc : c = '\n'
    · subst hc
      simp [splitLines, ihx, hA, hX, List.cons_append]
    · cases A1 with
      | nil =>
        have hca : splitLines (c :: a) = ([], c :: A2) := by
          simp [splitLines, hA, hc]
        rw [show (c :: a) ++ b = c :: (a ++ b) from rfl, hca]
        cases X1 with
        | nil =>
          have hL : splitLines (c :: (a ++ b)) = ([], c :: X2) := by
            simp [splitLines, ihx, hc]
          have hR : splitLines (c :: (A2 ++ b)) = ([], c :: X2) := by
            simp [splitLines, hX, hc]
          simp [List.cons_append, hL, hR]
        | cons x X1t =>
          have hL : splitLines (c :: (a ++ b)) = ((c :: x) :: X1t, X2) := by
            simp [splitLines, ihx, hc]
          have hR : splitLines (c :: (A2 ++ b)) = ((c :: x) :: X1t, X2) := by
            simp [splitLines, hX, hc]
          simp [List.cons_append, hL, hR]
      | cons l A1t =>
        simp [splitLines, ihx, hA, hX, hc, List.cons_append]

theorem processChunk_append (s : DecState) (a b : List Char) :
    processChunk s (a ++ b) = processChunk (processChunk s a) b := by
  rcases hL : splitLines (s.buffer ++ a) with ⟨L1, L2⟩
  rcases hM : splitLines (L2 ++ b) with ⟨M1, M2⟩
  have h1 : splitLines (s.buffer ++ (a ++ b)) = (L1 ++ M1, M2) := by
    rw [← List.append_assoc, splitLines_append (s.buffer ++ a) b, hL, hM]
  simp [processChunk, h1, hL, hM, List.foldl_append]

theorem splitLines_no_newline (cs : List Char) (h : ∀ c ∈ cs, c ≠ '\n') :
    splitLines cs = ([], cs) := by
  induction cs with
  | nil => rfl
  | cons c rest ih =>
    have hc : c ≠ '\n' := h c (List.mem_cons_self c rest)
    have hrest : splitLines rest = ([], rest) := by
      apply ih
      intro d hd
      exact h d (List.mem_cons_of_mem c hd)
    simp [splitLines, hrest, hc]

theorem splitLines_trailing (cs : List Char) :
    ∀ c ∈ (splitLines cs).2, c ≠ '\n' := by
  induction cs with
  | nil => intro c hc; simp [splitLines] at hc
  | cons c rest ih =>
    rcases hR : splitLines rest with ⟨ls, t⟩
    rw [hR] at ih
    intro d hd
    by_cases hc : c = '\n'
    · rw [show splitLines (c :: rest) = ([] :: ls, t) by simp [splitLines, hR, hc]] at hd
      exact ih d hd
    · cases ls with
      | nil =>
        rw [show splitLines (c :: rest) = ([], c :: t) by simp [splitLines, hR, hc]] at hd
        rcases List.mem_cons.mp hd with hdc | hdt
        · rw [hdc]; exact hc
        · exact ih d hdt
      | cons l ls2 =>
        rw [show splitLines (c :: rest) = ((c :: l) :: ls2, t) by simp [splitLines, hR, hc]] at hd
        exact ih d hd

theorem processChunk_nil (s : DecState) (h : ∀ c ∈ s.buffer, c ≠ '\n') :
    processChunk s [] = s := by
  simp [processChunk, List.append_nil, splitLines_no_newline s.buffer h]

theorem processChunk_buffer_trailing (s : DecState) (chunk : List Char) :
    ∀ c ∈ (processChunk s chunk).buffer, c ≠ '\n' := by
  rcases hS : splitLines (s.buffer ++ chunk) with ⟨ls, t⟩
  have ht : ∀ c ∈ t, c ≠ '\n' := by
    have := splitLines_trailing (s.buffer ++ chunk)
    rw [hS] at this
    exact this
  simp [processChunk, hS]
  exact ht

theorem foldl_processChunk_flatten (cs : List (List Char)) :
    ∀ (s : DecState), (∀ c ∈ s.buffer, c ≠ '\n') →
      List.foldl processChunk s cs = processChunk s cs.flatten := by
  induction cs with
  | nil =>
    intro s h
    simpa using (processChunk_nil s h).symm
  | cons c cs ih =>
    intro s h
    simp only [List.foldl_cons, List.flatten_cons]
    rw [ih (processChunk s c) (processChunk_buffer_trailing s c), ← processChunk_append]

/-- C4: the decode loop is chunk-boundary invariant — any two splittings of
the same byte sequence into chunks drive the decoder, started on an empty
buffer, to the same final state (same step statuses, same stored result or
failure). -/
theorem decode_chunk_boundary_invariant (core : Core) (cs1 cs2 : List (List Char))
    (h : cs1.flatten = cs2.flatten) :
    List.foldl processChunk { buffer := [], core := core } cs1 =
    List.foldl processChunk { buffer := [], core := core } cs2 := by
  rw [foldl_processChunk_flatten cs1 { buffer := [], core := core } (by simp),
      foldl_processChunk_flatten cs2 { buffer := [], core := core } (by simp), h]

/-- C4 witness: one record split mid-marker versus delivered whole. -/
theorem decode_chunk_boundary_invariant_witness :
    (["da".data, "ta: x\ndata: y\n".data].flatten = ["data: x\ndata: y\n".data].flatten) ∧
    (List.foldl processChunk { buffer := [], core := mountCore } ["da".data, "ta: x\ndata: y\n".data] =
     List.foldl processChunk { buffer := [], core := mountCore } ["data: x\ndata: y\n".data]) :=
  ⟨by decide, decode_chunk_boundary_invariant mountCore _ _ (by decide)⟩

/-- C5: a `data: `-prefixed record whose payload `JSON.parse` rejects is
discarded by the catch around the parse: the state is untouched and the
remaining records are processed exactly as if the bad record were absent. -/
theorem unparseable_record_skipped (c : Core) (line : List Char) (pre post : List (List Char))
    (h1 : ("data: ".data).isPrefixOf line = true)
    (h2 : jsonParse (line.drop 6) = none) :
    List.foldl handleLine c (pre ++ line :: post) = List.foldl handleLine c (pre ++ post) := by
  have hid : handleLine (List.foldl handleLine c pre) line = List.foldl handleLine c pre := by
    unfold handleLine
    rw [if_pos h1, h2]
  rw [List.foldl_append, List.foldl_append, List.foldl_cons, hid]

/-- C5 witness: a `data: ` record with a non-JSON payload between two valid
records changes nothing. -/
theorem unparseable_record_skipped_witness :
    (("data: ".data).isPrefixOf ("data: not json".data) = true) ∧
    (jsonParse (("data: not json".data).drop 6) = none) ∧
    (List.foldl handleLine mountCore
        ["data: \x7b\"type\": \"step_start\", \"step\": \"fetch_enviro_data\"\x7d".data,
         "data: not json".data,
         "data: \x7b\"type\": \"step_complete\", \"step\": \"fetch_enviro_data\"\x7d".data] =
     List.foldl handleLine mountCore
        ["data: \x7b\"type\": \"step_start\", \"step\": \"fetch_enviro_data\"\x7d".data,
         "data: \x7b\"type\": \"step_complete\", \"step\": \"fetch_enviro_data\"\x7d".data]) :=
  ⟨by decide, by rfl,
   unparseable_record_skipped mountCore ("data: not json".data)
     ["data: \x7b\"type\": \"step_start\", \"step\": \"fetch_enviro_data\"\x7d".data]
     ["data: \x7b\"type\": \"step_complete\", \"step\": \"fetch_enviro_data\"\x7d".data]
     (by decide) (by rfl)⟩

/-- C7: an empty/all-whitespace location or an empty allergy list makes the
run fail before the request: no fetch is issued, an error message is stored,
the in-progress flags are cleared, and every step stays `pending`. -/
theorem invalid_input_fails_fast (c0 : Core) (loc : List Char)
    (allergies : List (List Char)) (ok : Bool) (chunks : List (List Char))
    (h : trimL loc = [] ∨ allergies = []) :
    (fetchRiskData c0 loc allergies ok chunks).2 = false ∧
    (fetchRiskData c0 loc allergies ok chunks).1.error.isSome = true ∧
    (fetchRiskData c0 loc allergies ok chunks).1.steps = resetSteps ∧
    (fetchRiskData c0 loc allergies ok chunks).1.loading = false ∧
    (fetchRiskData c0 loc allergies ok chunks).1.streaming = false := by
  unfold fetchRiskData
  by_cases h1 : (loc.isEmpty || (trimL loc).isEmpty) = true
  · simp [h1]
  · have h2 : allergies = [] := by
      rcases h with h | h
      · exact absurd (by simp [h, List.isEmpty_iff]) h1
      · exact h
    simp [h1, h2]

/-- C7 witness: all-whitespace location, with a live transport. -/
theorem invalid_input_fails_fast_witness :
    (trimL ("   ".data) = [] ∨ (["pollen".data] : List (List Char)) = []) ∧
    ((fetchRiskData mountCore ("   ".data) ["pollen".data] true
        ["data: \x7b\"type\": \"step_start\", \"step\": \"fetch_enviro_data\"\x7d\n".data]).2 = false ∧
     (fetchRiskData mountCore ("   ".data) ["pollen".data] true
        ["data: \x7b\"type\": \"step_start\", \"step\": \"fetch_enviro_data\"\x7d\n".data]).1.error.isSome = true ∧
     (fetchRiskData mountCore ("   ".data) ["pollen".data] true
        ["data: \x7b\"type\": \"step_start\", \"step\": \"fetch_enviro_data\"\x7d\n".data]).1.steps = resetSteps ∧
     (fetchRiskData mountCore ("   ".data) ["pollen".data] true
        ["data: \x7b\"type\": \"step_start\", \"step\": \"fetch_enviro_data\"\x7d\n".data]).1.loading = false ∧
     (fetchRiskData mountCore ("   ".data) ["pollen".data] true
        ["data: \x7b\"type\": \"step_start\", \"step\": \"fetch_enviro_data\"\x7d\n".data]).1.streaming = false) :=
  ⟨Or.inl (by decide),
   invalid_input_fails_fast mountCore ("   ".data) ["pollen".data] true
     ["data: \x7b\"type\": \"step_start\", \"step\": \"fetch_enviro_data\"\x7d\n".data]
     (Or.inl (by decide))⟩

/-- C9: every call to `fetchRiskData` resets the step machine before any
event is read: with no chunk yet delivered the step list is exactly the four
known ids, in order, all `pending` — whatever the page state was before. -/
theorem run_resets_steps (c0 : Core) (loc : List Char)
    (allergies : List (List Char)) (ok : Bool) :
    (fetchRiskData c0 loc allergies ok []).1.steps.map (fun s => (s.id, s.status)) =
      [("fetch_enviro_data".data, Status.pending),
       ("analyze_risk".data, Status.pending),
       ("generate_advice".data, Status.pending),
       ("done".data, Status.pending)] := by
  have hsteps : (fetchRiskData c0 loc allergies ok []).1.steps = resetSteps := by
    unfold fetchRiskData
    by_cases h1 : (loc.isEmpty || (trimL loc).isEmpty) = true
    · simp [h1]
    · by_cases h2 : allergies.isEmpty = true
      · simp [h1, h2]
      · cases ok with
        | false => simp [h1, h2]
        | true => simp [h1, h2, processChunk_nil]
  rw [hsteps]
  decide

/-- C1 (code bug): a well-formed `error{message}` record does not fail the
run.  The `throw new Error(data.message)` of the `error` branch is caught by
the inner `catch (parseError)` that guards `JSON.parse`, which only logs: the
error state stays `null`, `loading` and `isStreaming` stay `true`, no result
is stored, and the steps are untouched — the run keeps spinning instead of
transitioning to failed as the specification requires. -/
theorem errorEvent_swallowed_run :
    (fetchRiskData mountCore ("Boston".data) ["pollen".data] true
        ["data: \x7b\"type\": \"error\", \"message\": \"boom\"\x7d\n".data]).1.error = none ∧
    (fetchRiskData mountCore ("Boston".data) ["pollen".data] true
        ["data: \x7b\"type\": \"error\", \"message\": \"boom\"\x7d\n".data]).1.loading = true ∧
    (fetchRiskData mountCore ("Boston".data) ["pollen".data] true
        ["data: \x7b\"type\": \"error\", \"message\": \"boom\"\x7d\n".data]).1.streaming = true ∧
    (fetchRiskData mountCore ("Boston".data) ["pollen".data] true
        ["data: \x7b\"type\": \"error\", \"message\": \"boom\"\x7d\n".data]).1.riskData = none ∧
    (fetchRiskData mountCore ("Boston".data) ["pollen".data] true
        ["data: \x7b\"type\": \"error\", \"message\": \"boom\"\x7d\n".data]).1.steps = resetSteps :=
  ⟨rfl, rfl, rfl, rfl, rfl⟩
